import Mathlib

/-!
Shallow embedding of the reliable-UDP chat protocol core
(src/src/udp_chat.c) and its encryption collaborator (src/encryption.c).

Machine integers are modelled as Nat with explicit `% 2^32` / `% 2^64`
where the C code can overflow.  The OpenSSL EVP layer (AES-256-CBC) is
external library code; it is abstracted as a pair of functions
`evpEnc` / `evpDec` satisfying the collaborator contract of spec section 6
(inverse on the same key/iv, output length `16 * (len/16 + 1)`).
Uninitialized C struct fields (the ACK packet's payload, the padding of
a sent packet's payload buffer) are modelled as explicit "junk"
parameters, so every theorem holds for arbitrary stack garbage.
-/

namespace UdpChat

/-- `PAYLOAD_SIZE` from udp_chat.c line 40. -/
def PAYLOAD_SIZE : Nat := 1024

/-- `TIMEOUT_MS` from udp_chat.c line 41. -/
def TIMEOUT_MS : Nat := 2000

/-- `MAX_UNACKED_PACKETS` from udp_chat.c line 42. -/
def MAX_UNACKED_PACKETS : Nat := 64

/-- `ENC_IV_LEN` from encryption.h. -/
def ENC_IV_LEN : Nat := 16

/-- `ENC_KEY_LEN` from encryption.h. -/
def ENC_KEY_LEN : Nat := 32

/-- Modulus of a C `uint32_t`. -/
def U32 : Nat := 2 ^ 32

/-- Modulus of a C `uint64_t`. -/
def U64 : Nat := 2 ^ 64

/-- `PacketType` from udp_chat.c lines 46-50. -/
inductive PacketType where
  | PKT_MSG
  | PKT_ACK
  | PKT_FIN
deriving DecidableEq

/-- The `Packet` struct from udp_chat.c lines 53-58.
`seq_num` is a `uint32_t`; `payload_len` is the declared length field;
`payload` models the contents of the `char[PAYLOAD_SIZE]` buffer. -/
structure Packet where
  type : PacketType
  seq_num : Nat
  payload_len : Nat
  payload : List Nat
deriving DecidableEq

/-- Little-endian 4-byte serialization of a 32-bit field. -/
def toBytes4 (n : Nat) : List Nat :=
  [n % 256, n / 256 % 256, n / 65536 % 256, n / 16777216 % 256]

/-- Read back a little-endian 4-byte field. -/
def fromBytes4 : List Nat → Nat
  | a :: b :: c :: d :: _ => a + 256 * b + 65536 * c + 16777216 * d
  | _ => 0

/-- Numeric tag of a packet kind (spec section 6: Message=0, Acknowledge=1, Finish=2). -/
def tagOf : PacketType → Nat
  | .PKT_MSG => 0
  | .PKT_ACK => 1
  | .PKT_FIN => 2

/-- Decode a packet-kind tag. -/
def tagDecode : Nat → Option PacketType
  | 0 => some .PKT_MSG
  | 1 => some .PKT_ACK
  | 2 => some .PKT_FIN
  | _ => none

/-- The wire image of one packet: the fixed struct layout that
`sendto(sock, (char*)&pkt, sizeof(Packet), ...)` puts on the wire
(12-byte header, then the full 1024-byte payload buffer).  The payload
buffer is normalized to exactly `PAYLOAD_SIZE` bytes, as the C array is. -/
def encodePacket (p : Packet) : List Nat :=
  toBytes4 (tagOf p.type) ++ toBytes4 p.seq_num ++ toBytes4 p.payload_len ++
    (p.payload.take PAYLOAD_SIZE ++ List.replicate (PAYLOAD_SIZE - p.payload.length) 0)

/-- `sizeof(Packet)`: 12-byte header plus the 1024-byte payload buffer. -/
def PACKET_SIZE : Nat := 12 + PAYLOAD_SIZE

/-- Modelled from the spec: the repository transmits the raw struct and has
no explicit `decode` function; spec section 4.1 specifies
`decode(bytes) -> Packet | FormatError` rejecting inputs shorter than the
fixed header or whose payload-length field exceeds the payload capacity. -/
def decodePacket (b : List Nat) : Option Packet :=
  if b.length < 12 then none
  else
    match tagDecode (fromBytes4 (b.take 4)) with
    | none => none
    | some t =>
      let seq := fromBytes4 ((b.drop 4).take 4)
      let plen := fromBytes4 ((b.drop 8).take 4)
      if PAYLOAD_SIZE < plen then none
      else some ⟨t, seq, plen,
        (b.drop 12).take PAYLOAD_SIZE ++
          List.replicate (PAYLOAD_SIZE - (b.length - 12)) 0⟩

/-- A packet value that the C program can actually hold: 32-bit fields in
range, a payload-length within capacity, and the full 1024-byte buffer. -/
def PacketValid (p : Packet) : Prop :=
  p.seq_num < U32 ∧ p.payload_len ≤ PAYLOAD_SIZE ∧ p.payload.length = PAYLOAD_SIZE

instance (p : Packet) : Decidable (PacketValid p) := by
  unfold PacketValid; infer_instance

theorem fromBytes4_toBytes4 (x : Nat) (h : x < 2 ^ 32) :
    fromBytes4 (toBytes4 x) = x := by
  simp only [toBytes4, fromBytes4]
  omega

theorem tagDecode_tagOf (t : PacketType) : tagDecode (tagOf t) = some t := by
  cases t <;> rfl

theorem encodePacket_length (p : Packet) :
    (encodePacket p).length = PACKET_SIZE := by
  simp only [encodePacket, toBytes4, PACKET_SIZE, PAYLOAD_SIZE,
    List.length_append, List.length_take, List.length_replicate,
    List.length_cons, List.length_nil]
  omega

theorem decode_encode (p : Packet) (hp : PacketValid p) :
    decodePacket (encodePacket p) = some p := by
  rcases hp with ⟨hseq, hplen, hpl⟩
  have hlen := encodePacket_length p
  have e1 : encodePacket p =
      toBytes4 (tagOf p.type) ++ (toBytes4 p.seq_num ++ (toBytes4 p.payload_len ++
        (p.payload.take PAYLOAD_SIZE ++ List.replicate (PAYLOAD_SIZE - p.payload.length) 0))) := by
    simp [encodePacket, List.append_assoc]
  have h4 : (toBytes4 (tagOf p.type)).length = 4 := by simp [toBytes4]
  have h4b : (toBytes4 p.seq_num).length = 4 := by simp [toBytes4]
  have h4c : (toBytes4 p.payload_len).length = 4 := by simp [toBytes4]
  have htake : (encodePacket p).take 4 = toBytes4 (tagOf p.type) := by
    rw [e1, List.take_left' h4]
  have hdrop4 : (encodePacket p).drop 4 =
      toBytes4 p.seq_num ++ (toBytes4 p.payload_len ++
        (p.payload.take PAYLOAD_SIZE ++ List.replicate (PAYLOAD_SIZE - p.payload.length) 0)) := by
    rw [e1, List.drop_left' h4]
  have hdrop8 : (encodePacket p).drop 8 =
      toBytes4 p.payload_len ++
        (p.payload.take PAYLOAD_SIZE ++ List.replicate (PAYLOAD_SIZE - p.payload.length) 0) := by
    have : (encodePacket p).drop 8 = ((encodePacket p).drop 4).drop 4 := by
      rw [List.drop_drop]
    rw [this, hdrop4, List.drop_left' h4b]
  have hdrop12 : (encodePacket p).drop 12 =
      p.payload.take PAYLOAD_SIZE ++ List.replicate (PAYLOAD_SIZE - p.payload.length) 0 := by
    have : (encodePacket p).drop 12 = ((encodePacket p).drop 8).drop 4 := by
      rw [List.drop_drop]
    rw [this, hdrop8, List.drop_left' h4c]
  have hpayd : p.payload.take PAYLOAD_SIZE ++
      List.replicate (PAYLOAD_SIZE - p.payload.length) 0 = p.payload := by
    rw [hpl]
    simp [List.take_of_length_le (le_of_eq hpl)]
  have htag : tagOf p.type < 2 ^ 32 := by cases p.type <;> norm_num [tagOf]
  unfold decodePacket
  rw [if_neg (by rw [hlen]; norm_num [PACKET_SIZE, PAYLOAD_SIZE])]
  rw [htake, fromBytes4_toBytes4 _ htag, tagDecode_tagOf]
  have hseqb : ((encodePacket p).drop 4).take 4 = toBytes4 p.seq_num := by
    rw [hdrop4, List.take_left' h4b]
  have hplenb : ((encodePacket p).drop 8).take 4 = toBytes4 p.payload_len := by
    rw [hdrop8, List.take_left' h4c]
  have hpl32 : p.payload_len < 2 ^ 32 := by
    have h1 : p.payload_len ≤ PAYLOAD_SIZE := hplen
    norm_num [PAYLOAD_SIZE] at h1
    omega
  have hseq32 : p.seq_num < 2 ^ 32 := by simpa [U32] using hseq
  simp only [hseqb, hplenb]
  rw [fromBytes4_toBytes4 p.payload_len hpl32,
    fromBytes4_toBytes4 p.seq_num hseq32]
  rw [if_neg (by omega)]
  rw [hdrop12, hpayd, hlen]
  have : p.payload.take PAYLOAD_SIZE = p.payload :=
    List.take_of_length_le (le_of_eq hpl)
  rw [this]
  have hrep : PAYLOAD_SIZE - (PACKET_SIZE - 12) = 0 := by
    norm_num [PAYLOAD_SIZE, PACKET_SIZE]
  rw [hrep]
  simp

/-!  Encryption collaborator, src/encryption.c.

`encrypt_message` (lines 26-64): checks the output capacity against
`need = ENC_IV_LEN + plaintext_len + ENC_IV_LEN`, writes a random IV
followed by the EVP aes-256-cbc ciphertext.  The random IV is passed in
as the `iv` argument (the result of `RAND_bytes`); the EVP layer is the
abstract `evpEnc`.

`decrypt_message` (lines 66-101): rejects `in_len < ENC_IV_LEN`, then
rejects `plaintext_cap < in_len - ENC_IV_LEN`, then runs EVP decryption
on the IV and ciphertext portions of the input buffer. -/

def encrypt_message (evpEnc : List Nat → List Nat → List Nat → List Nat)
    (key : List Nat) (plaintext : List Nat) (out_cap : Nat) (iv : List Nat) :
    Option (List Nat) :=
  if out_cap < ENC_IV_LEN + plaintext.length + ENC_IV_LEN then none
  else some (iv ++ evpEnc key iv plaintext)

def decrypt_message (evpDec : List Nat → List Nat → List Nat → Option (List Nat))
    (key : List Nat) (inBytes : List Nat) (inLen : Nat) (plaintext_cap : Nat) :
    Option (List Nat) :=
  if inLen < ENC_IV_LEN then none
  else if plaintext_cap < inLen - ENC_IV_LEN then none
  else evpDec key (inBytes.take ENC_IV_LEN) ((inBytes.drop ENC_IV_LEN).take (inLen - ENC_IV_LEN))

/-- The EVP collaborator contract of spec section 6: decryption with the
same key and IV inverts encryption. -/
def EvpInverse (evpEnc : List Nat → List Nat → List Nat → List Nat)
    (evpDec : List Nat → List Nat → List Nat → Option (List Nat)) : Prop :=
  ∀ k iv pt, evpDec k iv (evpEnc k iv pt) = some pt

/-- The aes-256-cbc output-length law: `EVP_EncryptUpdate` plus
`EVP_EncryptFinal_ex` with PKCS#7 padding emit `16 * (len/16 + 1)` bytes. -/
def EvpCbcLength (evpEnc : List Nat → List Nat → List Nat → List Nat) : Prop :=
  ∀ k iv pt, (evpEnc k iv pt).length = 16 * (pt.length / 16 + 1)

/-- A concrete instantiation of the EVP layer used by closed witnesses:
PKCS#7 padding with an identity block cipher. -/
def padEnc (_k _iv pt : List Nat) : List Nat :=
  pt ++ List.replicate (16 - pt.length % 16) (16 - pt.length % 16)

/-- Inverse of `padEnc`: strip the PKCS#7 padding. -/
def padDec (_k _iv c : List Nat) : Option (List Nat) :=
  match c.getLast? with
  | none => none
  | some v => if v = 0 ∨ c.length < v then none else some (c.take (c.length - v))

theorem padEnc_length : EvpCbcLength padEnc := by
  intro k iv pt
  simp only [padEnc, List.length_append, List.length_replicate]
  have h := Nat.div_add_mod pt.length 16
  have h2 : pt.length % 16 < 16 := Nat.mod_lt _ (by norm_num)
  omega

theorem padEnc_padDec : EvpInverse padEnc padDec := by
  intro k iv pt
  have h2 : pt.length % 16 < 16 := Nat.mod_lt _ (by norm_num)
  set v : Nat := 16 - pt.length % 16 with hv
  have hvpos : 0 < v := by omega
  have hrep : (List.replicate v v : List Nat) ≠ [] := by
    simp [List.replicate, ← List.length_pos]
    omega
  have hlast : (pt ++ List.replicate v v).getLast? = some v := by
    rw [List.getLast?_append_of_ne_nil pt hrep]
    rcases Nat.exists_eq_succ_of_ne_zero (by omega : v ≠ 0) with ⟨w, hw⟩
    rw [hw, List.replicate_succ']
    simp
  simp only [padDec, padEnc, hlast]
  have hlen : (pt ++ List.replicate v v).length = pt.length + v := by simp
  have hne : ¬(v = 0 ∨ (pt ++ List.replicate v v).length < v) := by
    rw [hlen]; omega
  rw [if_neg hne, hlen]
  have : pt.length + v - v = pt.length := by omega
  rw [this, List.take_left']
  rfl

/-- Under the EVP collaborator contract, decrypting the successful
output of `encrypt_message` (with the same key, the receiver's actual
capacity hypothesis) recovers the plaintext. -/
theorem encrypt_decrypt_roundtrip
    (evpEnc : List Nat → List Nat → List Nat → List Nat)
    (evpDec : List Nat → List Nat → List Nat → Option (List Nat))
    (hinv : EvpInverse evpEnc evpDec) (hlen : EvpCbcLength evpEnc)
    (key pt iv blob : List Nat) (out_cap cap : Nat)
    (hiv : iv.length = ENC_IV_LEN) (hcap : pt.length + 16 ≤ cap)
    (henc : encrypt_message evpEnc key pt out_cap iv = some blob) :
    decrypt_message evpDec key blob blob.length cap = some pt := by
  unfold encrypt_message at henc
  by_cases hoc : out_cap < ENC_IV_LEN + pt.length + ENC_IV_LEN
  · rw [if_pos hoc] at henc; simp at henc
  · rw [if_neg hoc] at henc
    have hblob : blob = iv ++ evpEnc key iv pt := by
      simpa using henc.symm
    have hclen : (evpEnc key iv pt).length = 16 * (pt.length / 16 + 1) := hlen key iv pt
    have hbl : blob.length = ENC_IV_LEN + (evpEnc key iv pt).length := by
      rw [hblob]; simp [hiv]
    have hc16 : 16 * (pt.length / 16) ≤ pt.length := by
      have := Nat.div_add_mod pt.length 16
      omega
    unfold decrypt_message
    rw [if_neg (by rw [hbl]; norm_num [ENC_IV_LEN])]
    rw [if_neg (by rw [hbl]; norm_num [ENC_IV_LEN]; omega)]
    have htk : blob.take ENC_IV_LEN = iv := by
      rw [hblob, List.take_left' hiv]
    have hdr : blob.drop ENC_IV_LEN = evpEnc key iv pt := by
      rw [hblob, List.drop_left' hiv]
    have hdl : blob.length - ENC_IV_LEN = (evpEnc key iv pt).length := by
      rw [hbl]; omega
    rw [htk, hdr, hdl, List.take_length]
    exact hinv key iv pt

/-!  Acknowledgment tracker.

The C state is the pair of parallel arrays `unacked_packets[]` /
`sent_time_ms[]` with `unacked_count` (udp_chat.c lines 71-73); modelled
as a list of entries whose length is `unacked_count`. -/

/-- One pending-send entry: the stored packet and its `sent_time_ms`. -/
structure Entry where
  packet : Packet
  sentAt : Nat
deriving DecidableEq

/-- A default entry (used only for the total `getLastD`). -/
def dummyEntry : Entry := ⟨⟨.PKT_MSG, 0, 0, []⟩, 0⟩

/-- Index of the first entry whose `seq_num` matches, mirroring the scan
loop of udp_chat.c lines 163-172. -/
def findSeqIdx : List Entry → Nat → Option Nat
  | [], _ => none
  | e :: rest, s =>
    if e.packet.seq_num = s then some 0 else (findSeqIdx rest s).map (· + 1)

/-- The ACK-processing removal (udp_chat.c lines 163-172): scan for the
first entry with the given seq; if found, overwrite it with the last
entry and shrink the table by one.  The Bool is the spec's
`remove_by_seq` result: whether anything was removed. -/
def removeBySeq (l : List Entry) (s : Nat) : List Entry × Bool :=
  match findSeqIdx l s with
  | none => (l, false)
  | some i => ((l.set i (l.getD (l.length - 1) dummyEntry)).dropLast, true)

theorem findSeqIdx_eq_none {l : List Entry} {s : Nat} :
    findSeqIdx l s = none ↔ ∀ e ∈ l, e.packet.seq_num ≠ s := by
  induction l with
  | nil => simp [findSeqIdx]
  | cons e rest ih =>
    by_cases h : e.packet.seq_num = s
    · simp [findSeqIdx, h]
    · simp [findSeqIdx, h, ih]

theorem findSeqIdx_eq_some {l : List Entry} {s i : Nat}
    (h : findSeqIdx l s = some i) :
    ∃ hi : i < l.length, (l.get ⟨i, hi⟩).packet.seq_num = s := by
  induction l generalizing i with
  | nil => simp [findSeqIdx] at h
  | cons e rest ih =>
    by_cases he : e.packet.seq_num = s
    · simp [findSeqIdx, he] at h
      subst h
      exact ⟨by simp, he⟩
    · simp [findSeqIdx, he] at h
      rcases h with ⟨j, hj, rfl⟩
      rcases ih hj with ⟨hlt, hget⟩
      exact ⟨by simpa using Nat.succ_lt_succ hlt, by simpa using hget⟩

theorem removeBySeq_found_length {l l' : List Entry} {s : Nat}
    (h : removeBySeq l s = (l', true)) : l'.length + 1 = l.length := by
  unfold removeBySeq at h
  cases hf : findSeqIdx l s with
  | none => rw [hf] at h; simp at h
  | some i =>
    rw [hf] at h
    rcases findSeqIdx_eq_some hf with ⟨hi, _⟩
    have hne : l ≠ [] := by
      intro hnil; rw [hnil] at hi; simp at hi
    have : l' = (l.set i (l.getD (l.length - 1) dummyEntry)).dropLast := by
      simpa using (congrArg Prod.fst h).symm
    rw [this]
    simp [List.length_dropLast]
    have hpos : 0 < l.length := List.length_pos.mpr hne
    omega

theorem removeBySeq_not_found {l l' : List Entry} {s : Nat}
    (h : removeBySeq l s = (l', false)) :
    l' = l ∧ ∀ e ∈ l, e.packet.seq_num ≠ s := by
  unfold removeBySeq at h
  cases hf : findSeqIdx l s with
  | none =>
    rw [hf] at h
    refine ⟨by simpa using (congrArg Prod.fst h).symm, findSeqIdx_eq_none.mp hf⟩
  | some i => rw [hf] at h; simp at h

theorem removeBySeq_found_of_mem {l : List Entry} {s : Nat}
    (h : ∃ e ∈ l, e.packet.seq_num = s) : (removeBySeq l s).2 = true := by
  unfold removeBySeq
  cases hf : findSeqIdx l s with
  | none =>
    rcases h with ⟨e, he, hs⟩
    exact absurd hs (findSeqIdx_eq_none.mp hf e he)
  | some i => rfl

/-- Positional injectivity of sequence numbers in a table whose seq
column has no duplicates. -/
theorem seq_pos_inj {l : List Entry}
    (hnd : (l.map fun e => e.packet.seq_num).Nodup)
    {i j : Nat} (hi : i < l.length) (hj : j < l.length)
    (h : (l.get ⟨i, hi⟩).packet.seq_num = (l.get ⟨j, hj⟩).packet.seq_num) :
    i = j := by
  have hi' : i < (l.map fun e => e.packet.seq_num).length := by simpa using hi
  have hj' : j < (l.map fun e => e.packet.seq_num).length := by simpa using hj
  have hmap := @List.Nodup.getElem_inj_iff _ _ hnd _ hi' _ hj'
  apply hmap.mp
  simpa [List.getElem_map] using h

/-- After a removal, no entry with the removed seq remains (given the
unique-seq invariant); hence a repeated removal is a no-op. -/
theorem removeBySeq_seq_absent {l : List Entry} {s : Nat}
    (hnd : (l.map fun e => e.packet.seq_num).Nodup) :
    ∀ e ∈ (removeBySeq l s).1, e.packet.seq_num ≠ s := by
  unfold removeBySeq
  cases hf : findSeqIdx l s with
  | none => exact findSeqIdx_eq_none.mp hf
  | some i =>
    rcases findSeqIdx_eq_some hf with ⟨hi, hseq⟩
    intro e he
    simp only at he
    rcases List.mem_iff_getElem.mp he with ⟨j, hjlen, hje⟩
    have hjlt : j < l.length - 1 := by
      simpa [List.length_dropLast, List.length_set] using hjlen
    have hjl : j < (l.set i (l.getD (l.length - 1) dummyEntry)).length := by
      simp [List.length_set]; omega
    have hdrop : ((l.set i (l.getD (l.length - 1) dummyEntry)).dropLast)[j] =
        (l.set i (l.getD (l.length - 1) dummyEntry))[j] := by
      rw [List.getElem_dropLast]
    have hlast : l.getD (l.length - 1) dummyEntry = l.get ⟨l.length - 1, by omega⟩ := by
      rw [List.getD_eq_getElem l dummyEntry (by omega)]
      rfl
    by_cases hij : i = j
    · subst hij
      have : (l.set i (l.getD (l.length - 1) dummyEntry))[i] =
          l.getD (l.length - 1) dummyEntry := by
        rw [List.getElem_set]
        simp
      rw [hdrop, this, hlast] at hje
      intro hcon
      have hlen1 : l.length - 1 < l.length := by omega
      have : l.length - 1 = i := by
        apply seq_pos_inj hnd hlen1 hi
        rw [hje, hcon, hseq]
      omega
    · have : (l.set i (l.getD (l.length - 1) dummyEntry))[j] = l[j] := by
        rw [List.getElem_set]
        simp [hij]
      rw [hdrop, this] at hje
      intro hcon
      have hj2 : j < l.length := by omega
      have : j = i := by
        apply seq_pos_inj hnd hj2 hi
        rw [show l.get ⟨j, hj2⟩ = e from hje, hseq, hcon]
      exact hij this.symm

/-!  Receive dispatcher (receiver_fn, udp_chat.c lines 115-188). -/

/-- The mutable state the receiver thread touches: the receive cursor
`expected_seq_num_to_recv`, the shared tracker, the `running` stop flag,
and the session peer (`peer_addr` / `peer_addr_known`).  Endpoint
addresses are abstracted as Nat identities. -/
structure RecvState where
  expected : Nat
  tracker : List Entry
  running : Bool
  peerKnown : Bool
  peerAddr : Nat
deriving DecidableEq

/-- Observable outputs of a protocol step: a datagram put on the wire
(the encoded frame), or a plaintext delivered to the application. -/
inductive Event where
  | sendFrame (frame : List Nat)
  | deliver (plaintext : List Nat)
deriving DecidableEq

/-- Frames transmitted among a step's events. -/
def framesSent (evs : List Event) : List (List Nat) :=
  evs.filterMap fun e => match e with
    | .sendFrame f => some f
    | _ => none

/-- Plaintexts delivered among a step's events. -/
def deliveries (evs : List Event) : List (List Nat) :=
  evs.filterMap fun e => match e with
    | .deliver pt => some pt
    | _ => none

/-- Peer rendezvous (udp_chat.c lines 131-141): the first inbound
datagram's sender becomes the session peer; afterwards a no-op. -/
def observe (st : RecvState) (sender : Nat) : RecvState :=
  if st.peerKnown then st
  else { st with peerAddr := sender, peerKnown := true }

/-- One iteration of the receiver loop body after a successful
`recvfrom` (udp_chat.c lines 127-185): observe the sender, then dispatch
on the packet type.  `junkLen`/`junkPl` are the uninitialized
`payload_len`/`payload` fields of the stack-allocated ACK packet
(lines 145-148 set only `type` and `seq_num`). -/
def receiverStep (evpDec : List Nat → List Nat → List Nat → Option (List Nat))
    (key : List Nat) (junkLen : Nat) (junkPl : List Nat)
    (st0 : RecvState) (sender : Nat) (p : Packet) : RecvState × List Event :=
  let st := observe st0 sender
  match p.type with
  | .PKT_MSG =>
    let ackEv := Event.sendFrame (encodePacket ⟨.PKT_ACK, p.seq_num, junkLen, junkPl⟩)
    if p.seq_num = st.expected then
      match decrypt_message evpDec key p.payload p.payload_len PAYLOAD_SIZE with
      | some pt =>
        ({ st with expected := (st.expected + 1) % U32 }, [ackEv, Event.deliver pt])
      | none =>
        ({ st with expected := (st.expected + 1) % U32 }, [ackEv])
    else (st, [ackEv])
  | .PKT_ACK => ({ st with tracker := (removeBySeq st.tracker p.seq_num).1 }, [])
  | .PKT_FIN => ({ st with running := false }, [])

/-!  Send path (sender_fn, udp_chat.c lines 190-243). -/

/-- The sender-side reliability state: `next_seq_num_to_send` (a
`uint32_t`, line 67) and the shared tracker. -/
structure SessionState where
  nextSeq : Nat
  tracker : List Entry
deriving DecidableEq

/-- One send attempt for a nonempty input line with the peer known
(udp_chat.c lines 214-240): encrypt into a `PAYLOAD_SIZE` buffer; on
encryption failure do nothing; at tracker capacity warn and do nothing;
otherwise allocate `next_seq_num_to_send++`, append the entry with
`sent_time_ms := now`, and transmit the packet.  `iv` is the randomness
consumed by `RAND_bytes`; `junkPad` is the uninitialized tail of the
packet's 1024-byte payload buffer past `enc_len`.  Returns the new
state, the transmitted frames, and the assigned sequence number. -/
def send_message (evpEnc : List Nat → List Nat → List Nat → List Nat)
    (key : List Nat) (st : SessionState) (line : List Nat) (now : Nat)
    (iv : List Nat) (junkPad : List Nat) :
    SessionState × List Event × Option Nat :=
  match encrypt_message evpEnc key line PAYLOAD_SIZE iv with
  | none => (st, [], none)
  | some blob =>
    if MAX_UNACKED_PACKETS ≤ st.tracker.length then (st, [], none)
    else
      let pkt : Packet := ⟨.PKT_MSG, st.nextSeq, blob.length, blob ++ junkPad⟩
      ({ nextSeq := (st.nextSeq + 1) % U32,
         tracker := st.tracker ++ [⟨pkt, now⟩] },
       [Event.sendFrame (encodePacket pkt)], some st.nextSeq)

/-!  Retransmission scheduler (retransmitter_fn, udp_chat.c lines 245-266). -/

/-- `uint64_t` subtraction `a - b` as computed by the C expression
`now - sent_time_ms[i]`. -/
def u64sub (a b : Nat) : Nat := (U64 + a - b % U64) % U64

/-- The retransmission condition of udp_chat.c line 257:
`now - sent_time_ms[i] > TIMEOUT_MS` in `uint64_t` arithmetic. -/
def overdue (now : Nat) (e : Entry) : Bool :=
  decide (TIMEOUT_MS < u64sub now e.sentAt)

/-- One scheduler tick (udp_chat.c lines 255-262): for every entry whose
age exceeds the timeout, retransmit the stored packet unchanged and
refresh `sent_time_ms[i] := now`.  Returns the updated tracker and the
frames put on the wire, in table order. -/
def scanOverdue (now : Nat) (l : List Entry) : List Entry × List (List Nat) :=
  (l.map fun e => if overdue now e then ⟨e.packet, now⟩ else e,
   (l.filter (overdue now)).map fun e => encodePacket e.packet)

/-!  The three worker loops and the shutdown coordinator. -/

/-- The receiver loop (`while (running) { recvfrom; ... }`): the stop
flag is consulted once per iteration, before blocking on the next
datagram.  Inputs are the (sender, packet) pairs delivered by the
socket. -/
def receiver_fn (evpDec : List Nat → List Nat → List Nat → Option (List Nat))
    (key : List Nat) (junkLen : Nat) (junkPl : List Nat) :
    List (Nat × Packet) → RecvState → RecvState × List Event
  | [], st => (st, [])
  | (sender, p) :: rest, st =>
    if st.running then
      let r := receiverStep evpDec key junkLen junkPl st sender p
      let r2 := receiver_fn evpDec key junkLen junkPl rest r.1
      (r2.1, r.2 ++ r2.2)
    else (st, [])

/-- The sender thread's view of the shared state. -/
structure SenderState where
  running : Bool
  peerKnown : Bool
  sess : SessionState
deriving DecidableEq

/-- The sender loop (`while (running) { fgets; ... }`): skip empty lines
and lines typed before the peer is known; otherwise run the send path.
Inputs are the user's input lines (with per-line `now`/`iv`/`junkPad`). -/
def sender_fn (evpEnc : List Nat → List Nat → List Nat → List Nat)
    (key : List Nat) :
    List (List Nat × Nat × List Nat × List Nat) → SenderState →
      SenderState × List Event
  | [], st => (st, [])
  | (line, now, iv, junkPad) :: rest, st =>
    if st.running then
      let r :=
        if line = [] then (st, ([] : List Event))
        else if st.peerKnown = false then (st, [])
        else
          let s := send_message evpEnc key st.sess line now iv junkPad
          ({ st with sess := s.1 }, s.2.1)
      let r2 := sender_fn evpEnc key rest r.1
      (r2.1, r.2 ++ r2.2)
    else (st, [])

/-- The retransmitter thread's view of the shared state. -/
structure RetransState where
  running : Bool
  tracker : List Entry
deriving DecidableEq

/-- The retransmitter loop (`while (running) { Sleep(100); scan; }`):
one scan per tick; inputs are the clock values observed at each tick. -/
def retransmitter_fn : List Nat → RetransState → RetransState × List Event
  | [], st => (st, [])
  | now :: rest, st =>
    if st.running then
      let r := scanOverdue now st.tracker
      let r2 := retransmitter_fn rest { st with tracker := r.1 }
      (r2.1, (r.2.map Event.sendFrame) ++ r2.2)
    else (st, [])

/-- Observable actions of `main`'s cleanup sequence
(udp_chat.c lines 326-343). -/
inductive MainEvent where
  | joinRx
  | joinTx
  | joinRt
  | sendFrame (frame : List Nat)
  | closeSocket
deriving DecidableEq

/-- Frames transmitted by the cleanup sequence. -/
def mainFrames (evs : List MainEvent) : List (List Nat) :=
  evs.filterMap fun e => match e with
    | .sendFrame f => some f
    | _ => none

/-- `main`'s shutdown sequence (udp_chat.c lines 326-343): join the
three worker threads, then, when the peer is known, send one `Finish`
packet carrying `next_seq_num_to_send` (its payload fields
uninitialized: `junkLen`/`junkPl`), then close the socket. -/
def mainCleanup (peerKnown : Bool) (nextSeq : Nat) (junkLen : Nat)
    (junkPl : List Nat) : List MainEvent :=
  [.joinRx, .joinTx, .joinRt] ++
    (if peerKnown then
      [.sendFrame (encodePacket ⟨.PKT_FIN, nextSeq, junkLen, junkPl⟩)]
     else []) ++
    [.closeSocket]

/-!  Session traces over the sender-side state, for reasoning about the
sequence-number counter across a whole session.  An `Op` is one of the
counter-relevant actions: a send attempt, processing an inbound ACK
(the tracker part of `receiverStep`), or a scheduler scan.  Only a
successful send touches `next_seq_num_to_send`. -/

inductive Op where
  | send (line : List Nat) (now : Nat) (iv : List Nat) (junkPad : List Nat)
  | ack (s : Nat)
  | scan (now : Nat)

/-- Effect of one `Op` on the sender-side state, together with the
sequence number it assigned (for a successful send). -/
def opStep (evpEnc : List Nat → List Nat → List Nat → List Nat)
    (key : List Nat) (st : SessionState) : Op → SessionState × Option Nat
  | .send line now iv junkPad =>
    let r := send_message evpEnc key st line now iv junkPad
    (r.1, r.2.2)
  | .ack s => ({ st with tracker := (removeBySeq st.tracker s).1 }, none)
  | .scan now => ({ st with tracker := (scanOverdue now st.tracker).1 }, none)

/-- Run a session trace, collecting the assigned sequence numbers in
order. -/
def runOps (evpEnc : List Nat → List Nat → List Nat → List Nat)
    (key : List Nat) : SessionState → List Op → SessionState × List Nat
  | st, [] => (st, [])
  | st, op :: rest =>
    let r := opStep evpEnc key st op
    let r2 := runOps evpEnc key r.1 rest
    (r2.1, r.2.toList ++ r2.2)

theorem runOps_append (evpEnc : List Nat → List Nat → List Nat → List Nat)
    (key : List Nat) (a b : List Op) (st : SessionState) :
    runOps evpEnc key st (a ++ b) =
      ((runOps evpEnc key (runOps evpEnc key st a).1 b).1,
       (runOps evpEnc key st a).2 ++ (runOps evpEnc key (runOps evpEnc key st a).1 b).2) := by
  induction a generalizing st with
  | nil => simp [runOps]
  | cons op rest ih => simp [runOps, ih]

/-- A successful send advances the counter by one modulo `2^32` and
assigns the old counter value; every other op (and every failed send)
leaves the counter untouched. -/
theorem opStep_nextSeq (evpEnc : List Nat → List Nat → List Nat → List Nat)
    (key : List Nat) (st : SessionState) (op : Op) :
    ((opStep evpEnc key st op).2 = none ∧
       (opStep evpEnc key st op).1.nextSeq = st.nextSeq) ∨
    ((opStep evpEnc key st op).2 = some st.nextSeq ∧
       (opStep evpEnc key st op).1.nextSeq = (st.nextSeq + 1) % U32) := by
  cases op with
  | send line now iv junkPad =>
    simp only [opStep, send_message]
    cases h : encrypt_message evpEnc key line PAYLOAD_SIZE iv with
    | none => exact Or.inl ⟨rfl, rfl⟩
    | some blob =>
      by_cases hc : MAX_UNACKED_PACKETS ≤ st.tracker.length
      · simp [hc]
      · simp [hc]
  | ack s => exact Or.inl ⟨rfl, rfl⟩
  | scan now => exact Or.inl ⟨rfl, rfl⟩

/-- Along any session trace starting with counter value `c < 2^32`, the
assigned sequence numbers are `(c + 0) % 2^32, (c + 1) % 2^32, ...` in
order, and the counter ends at `(c + k) % 2^32` where `k` is the number
of successful sends. -/
theorem runOps_seqs (evpEnc : List Nat → List Nat → List Nat → List Nat)
    (key : List Nat) (ops : List Op) (st : SessionState)
    (h : st.nextSeq < U32) :
    (runOps evpEnc key st ops).1.nextSeq =
        (st.nextSeq + (runOps evpEnc key st ops).2.length) % U32 ∧
    (runOps evpEnc key st ops).2 =
      (List.range (runOps evpEnc key st ops).2.length).map
        (fun j => (st.nextSeq + j) % U32) := by
  induction ops generalizing st with
  | nil =>
    simp [runOps, Nat.mod_eq_of_lt h]
  | cons op rest ih =>
    have hU : 0 < U32 := by norm_num [U32]
    rcases opStep_nextSeq evpEnc key st op with ⟨h1, h2⟩ | ⟨h1, h2⟩
    · have hlt : (opStep evpEnc key st op).1.nextSeq < U32 := by rw [h2]; exact h
      rcases ih (opStep evpEnc key st op).1 hlt with ⟨ih1, ih2⟩
      constructor
      · simp [runOps, h1, ih1, h2]
      · simp only [runOps, h1, Option.toList_none, List.nil_append]
        rw [ih2, h2]
        simp only [List.length_map, List.length_range]
    · have hlt : (opStep evpEnc key st op).1.nextSeq < U32 := by
        rw [h2]; exact Nat.mod_lt _ hU
      rcases ih (opStep evpEnc key st op).1 hlt with ⟨ih1, ih2⟩
      constructor
      · simp only [runOps, h1, Option.toList_some, List.singleton_append,
          List.length_cons]
        rw [ih1, h2, Nat.mod_add_mod]
        ring_nf
      · simp only [runOps, h1, Option.toList_some, List.singleton_append,
          List.length_cons]
        rw [List.range_succ_eq_map, List.map_cons, List.map_map]
        refine List.cons_eq_cons.mpr ⟨(Nat.mod_eq_of_lt h).symm, ?_⟩
        rw [ih2, h2]
        simp only [List.length_map, List.length_range]
        apply List.map_congr_left
        intro j hj
        simp only [Function.comp_apply]
        rw [Nat.mod_add_mod]
        congr 1
        omega

/-- A single-character send attempt (the user types "x"). -/
def sendX : Op := .send [120] 0 [] []

/-- A session in which every sent message is acknowledged immediately:
`n` rounds of (send, matching ACK). -/
def pingPongOps (n : Nat) : List Op :=
  (List.range n).flatMap fun j => [sendX, .ack (j % U32)]

theorem pingPong_step (c : Nat) :
    runOps padEnc [] ⟨c, []⟩ [sendX, .ack c] = (⟨(c + 1) % U32, []⟩, [c]) := by
  simp [runOps, opStep, sendX, send_message, encrypt_message, removeBySeq,
    findSeqIdx, PAYLOAD_SIZE, MAX_UNACKED_PACKETS, ENC_IV_LEN]

theorem pingPong_run (n : Nat) :
    runOps padEnc [] ⟨0, []⟩ (pingPongOps n) =
      (⟨n % U32, []⟩, (List.range n).map (· % U32)) := by
  induction n with
  | zero => simp [pingPongOps, runOps, U32]
  | succ n ih =>
    have hsplit : pingPongOps (n + 1) =
        pingPongOps n ++ [sendX, .ack (n % U32)] := by
      simp [pingPongOps, List.range_succ]
    rw [hsplit, runOps_append, ih]
    have hstep := pingPong_step (n % U32)
    simp only at hstep ⊢
    rw [hstep]
    have hU : 0 < U32 := by norm_num [U32]
    rw [Nat.mod_add_mod, List.range_succ, List.map_append]
    simp

/-!  Small helper lemmas shared by the claim theorems. -/

theorem observe_expected (st : RecvState) (a : Nat) :
    (observe st a).expected = st.expected := by
  unfold observe; split <;> rfl

theorem observe_tracker (st : RecvState) (a : Nat) :
    (observe st a).tracker = st.tracker := by
  unfold observe; split <;> rfl

theorem observe_running (st : RecvState) (a : Nat) :
    (observe st a).running = st.running := by
  unfold observe; split <;> rfl

theorem removeBySeq_of_absent {m : List Entry} {s : Nat}
    (h : ∀ e ∈ m, e.packet.seq_num ≠ s) : removeBySeq m s = (m, false) := by
  unfold removeBySeq
  rw [findSeqIdx_eq_none.mpr h]

/-- A concrete packet used by closed witness statements. -/
def pkt0 : Packet := ⟨.PKT_MSG, 5, 0, []⟩

/-!  The claim theorems. -/

/-- C2: the acknowledgment tracker never holds more than
`MAX_UNACKED_PACKETS` (64) entries; when `send_message` runs with the
tracker already at capacity, the call fails, the state (tracker and
`next_seq_num_to_send`) is unchanged, and no datagram is transmitted —
the capacity check happens before a sequence number is allocated.
Removal and the scheduler scan preserve the bound as well. -/
theorem C2_capacity_bound (evpEnc : List Nat → List Nat → List Nat → List Nat)
    (key : List Nat) (st : SessionState) (line : List Nat) (now : Nat)
    (iv junkPad : List Nat) :
    (MAX_UNACKED_PACKETS ≤ st.tracker.length →
       send_message evpEnc key st line now iv junkPad = (st, [], none)) ∧
    (st.tracker.length ≤ MAX_UNACKED_PACKETS →
       (send_message evpEnc key st line now iv junkPad).1.tracker.length ≤
         MAX_UNACKED_PACKETS) ∧
    (∀ s, st.tracker.length ≤ MAX_UNACKED_PACKETS →
       (removeBySeq st.tracker s).1.length ≤ MAX_UNACKED_PACKETS) ∧
    (∀ t, (scanOverdue t st.tracker).1.length = st.tracker.length) := by
  refine ⟨?_, ?_, ?_, ?_⟩
  · intro hful
    unfold send_message
    cases encrypt_message evpEnc key line PAYLOAD_SIZE iv with
    | none => rfl
    | some blob => simp [hful]
  · intro hle
    unfold send_message
    cases encrypt_message evpEnc key line PAYLOAD_SIZE iv with
    | none => simpa using hle
    | some blob =>
      by_cases hc : MAX_UNACKED_PACKETS ≤ st.tracker.length
      · simpa [hc] using hle
      · simp [hc]
        omega
  · intro s hle
    cases hr : removeBySeq st.tracker s with
    | mk l' b =>
      cases b with
      | true => have := removeBySeq_found_length hr; simpa using by omega
      | false => have := (removeBySeq_not_found hr).1; simp [this]; omega
  · intro t
    simp [scanOverdue]

/-- C2 witness: with the tracker at its 64-entry capacity the send call
is rejected and changes nothing. -/
theorem C2_capacity_bound_witness :
    send_message padEnc [] ⟨0, List.replicate 64 ⟨pkt0, 0⟩⟩ [120] 0 [] [] =
      (⟨0, List.replicate 64 ⟨pkt0, 0⟩⟩, [], none) :=
  (C2_capacity_bound padEnc [] ⟨0, List.replicate 64 ⟨pkt0, 0⟩⟩ [120] 0 [] []).1
    (by decide)

/-- C4: processing an `Acknowledge` removes at most one tracker entry:
if an entry with the seq is present exactly one entry is removed and
success is reported; otherwise the tracker is unchanged and the call is
a no-op reporting false; under the unique-seq invariant a repeated
removal for the same seq is a no-op reporting false. -/
theorem C4_remove_at_most_once (l : List Entry) (s : Nat) :
    (∀ l', removeBySeq l s = (l', true) → l'.length + 1 = l.length) ∧
    (∀ l', removeBySeq l s = (l', false) →
       l' = l ∧ ∀ e ∈ l, e.packet.seq_num ≠ s) ∧
    ((∃ e ∈ l, e.packet.seq_num = s) → (removeBySeq l s).2 = true) ∧
    ((l.map fun e => e.packet.seq_num).Nodup →
       removeBySeq (removeBySeq l s).1 s = ((removeBySeq l s).1, false)) := by
  refine ⟨fun l' h => removeBySeq_found_length h,
    fun l' h => removeBySeq_not_found h,
    removeBySeq_found_of_mem, fun hnd => ?_⟩
  exact removeBySeq_of_absent (removeBySeq_seq_absent hnd)

/-- C4 witness: a concrete one-entry table; the matching ACK removes the
entry, and repeating it is a no-op returning false. -/
theorem C4_remove_at_most_once_witness :
    (removeBySeq [⟨pkt0, 0⟩] 5).2 = true ∧
    removeBySeq (removeBySeq [⟨pkt0, 0⟩] 5).1 5 =
      ((removeBySeq [⟨pkt0, 0⟩] 5).1, false) :=
  ⟨(C4_remove_at_most_once [⟨pkt0, 0⟩] 5).2.2.1 ⟨⟨pkt0, 0⟩, by decide, by decide⟩,
   (C4_remove_at_most_once [⟨pkt0, 0⟩] 5).2.2.2 (by decide)⟩

/-- C7: peer rendezvous sets the session peer at most once: an `observe`
on an unknown peer records the sender and marks it known; once known,
`observe` is an idempotent no-op, any sequence of later observations
leaves the state unchanged, and no receiver step ever reassigns the peer
address. -/
theorem C7_peer_set_once :
    (∀ st a, st.peerKnown = false →
       (observe st a).peerAddr = a ∧ (observe st a).peerKnown = true) ∧
    (∀ st a, st.peerKnown = true → observe st a = st) ∧
    (∀ (st : RecvState) (addrs : List Nat), st.peerKnown = true →
       List.foldl observe st addrs = st) ∧
    (∀ evpDec key junkLen junkPl st sender p, st.peerKnown = true →
       (receiverStep evpDec key junkLen junkPl st sender p).1.peerAddr = st.peerAddr ∧
       (receiverStep evpDec key junkLen junkPl st sender p).1.peerKnown = true) := by
  have hobs : ∀ (st : RecvState) (a : Nat), st.peerKnown = true → observe st a = st := by
    intro st a h
    unfold observe
    rw [h]
    rfl
  refine ⟨?_, hobs, ?_, ?_⟩
  · intro st a h
    unfold observe
    rw [h]
    exact ⟨rfl, rfl⟩
  · intro st addrs h
    induction addrs with
    | nil => rfl
    | cons a rest ih =>
      simp only [List.foldl_cons]
      rw [hobs st a h]
      exact ih
  · intro evpDec key junkLen junkPl st sender p h
    unfold receiverStep
    rw [hobs st sender h]
    cases p.type with
    | PKT_MSG =>
      simp only
      split
      · cases decrypt_message evpDec key p.payload p.payload_len PAYLOAD_SIZE with
        | some pt => exact ⟨rfl, h⟩
        | none => exact ⟨rfl, h⟩
      · exact ⟨rfl, h⟩
    | PKT_ACK => exact ⟨rfl, h⟩
    | PKT_FIN => exact ⟨rfl, h⟩

/-- C7 witness: a first observation fixes the peer; a later datagram
from a different sender does not move it. -/
theorem C7_peer_set_once_witness :
    (observe ⟨0, [], true, false, 0⟩ 7).peerAddr = 7 ∧
    (observe ⟨0, [], true, false, 0⟩ 7).peerKnown = true ∧
    List.foldl observe ⟨0, [], true, true, 7⟩ [8, 9] = ⟨0, [], true, true, 7⟩ :=
  ⟨(C7_peer_set_once.1 ⟨0, [], true, false, 0⟩ 7 rfl).1,
   (C7_peer_set_once.1 ⟨0, [], true, false, 0⟩ 7 rfl).2,
   C7_peer_set_once.2.2.1 ⟨0, [], true, true, 7⟩ [8, 9] rfl⟩

/-- C10: every datagram the program transmits — from the receiver's ACK
path, the send path, the retransmission scheduler, and the shutdown
`Finish` — is the full fixed frame of `sizeof(Packet)` bytes, whatever
the packet's type or `payload_len`. -/
theorem C10_fixed_datagram_size :
    (∀ evpDec key junkLen junkPl st sender p,
       ∀ f ∈ framesSent (receiverStep evpDec key junkLen junkPl st sender p).2,
         f.length = PACKET_SIZE) ∧
    (∀ evpEnc key st line now iv junkPad,
       ∀ f ∈ framesSent (send_message evpEnc key st line now iv junkPad).2.1,
         f.length = PACKET_SIZE) ∧
    (∀ now l, ∀ f ∈ (scanOverdue now l).2, f.length = PACKET_SIZE) ∧
    (∀ known nextSeq junkLen junkPl,
       ∀ f ∈ mainFrames (mainCleanup known nextSeq junkLen junkPl),
         f.length = PACKET_SIZE) := by
  refine ⟨?_, ?_, ?_, ?_⟩
  · intro evpDec key junkLen junkPl st sender p f hf
    cases hp : p.type with
    | PKT_MSG =>
      simp only [receiverStep, hp] at hf
      by_cases h : p.seq_num = (observe st sender).expected
      · rw [if_pos h] at hf
        cases hd : decrypt_message evpDec key p.payload p.payload_len PAYLOAD_SIZE with
        | some pt =>
          rw [hd] at hf
          simp [framesSent] at hf
          rw [hf]; exact encodePacket_length _
        | none =>
          rw [hd] at hf
          simp [framesSent] at hf
          rw [hf]; exact encodePacket_length _
      · rw [if_neg h] at hf
        simp [framesSent] at hf
        rw [hf]; exact encodePacket_length _
    | PKT_ACK => simp [receiverStep, hp, framesSent] at hf
    | PKT_FIN => simp [receiverStep, hp, framesSent] at hf
  · intro evpEnc key st line now iv junkPad f hf
    unfold send_message at hf
    cases he : encrypt_message evpEnc key line PAYLOAD_SIZE iv with
    | none => rw [he] at hf; simp [framesSent] at hf
    | some blob =>
      rw [he] at hf
      by_cases hc : MAX_UNACKED_PACKETS ≤ st.tracker.length
      · simp [hc, framesSent] at hf
      · simp [hc, framesSent] at hf
        rw [hf]; exact encodePacket_length _
  · intro now l f hf
    simp only [scanOverdue, List.mem_map] at hf
    rcases hf with ⟨e, _, he⟩
    rw [← he]; exact encodePacket_length _
  · intro known nextSeq junkLen junkPl f hf
    cases known with
    | true =>
      simp [mainCleanup, mainFrames] at hf
      rw [hf]; exact encodePacket_length _
    | false => simp [mainCleanup, mainFrames] at hf

set_option maxRecDepth 8000 in
/-- C10 witness: a concrete overdue entry is retransmitted as a frame of
exactly `sizeof(Packet)` bytes. -/
theorem C10_fixed_datagram_size_witness :
    encodePacket pkt0 ∈ (scanOverdue 3000 [⟨pkt0, 0⟩]).2 ∧
    (encodePacket pkt0).length = PACKET_SIZE :=
  ⟨by decide,
   C10_fixed_datagram_size.2.2.1 3000 [⟨pkt0, 0⟩] (encodePacket pkt0) (by decide)⟩

/-!  Dispatcher lemmas for the Message branch (udp_chat.c 144-159). -/

theorem receiverStep_msg_frames
    (evpDec : List Nat → List Nat → List Nat → Option (List Nat))
    (key : List Nat) (junkLen : Nat) (junkPl : List Nat)
    (st : RecvState) (sender : Nat) (p : Packet) (hmsg : p.type = .PKT_MSG) :
    framesSent (receiverStep evpDec key junkLen junkPl st sender p).2 =
      [encodePacket ⟨.PKT_ACK, p.seq_num, junkLen, junkPl⟩] := by
  simp only [receiverStep, hmsg]
  by_cases h : p.seq_num = (observe st sender).expected
  · rw [if_pos h]
    cases hd : decrypt_message evpDec key p.payload p.payload_len PAYLOAD_SIZE with
    | some pt => simp [framesSent]
    | none => simp [framesSent]
  · rw [if_neg h]
    simp [framesSent]

theorem receiverStep_msg_hit
    (evpDec : List Nat → List Nat → List Nat → Option (List Nat))
    (key : List Nat) (junkLen : Nat) (junkPl : List Nat)
    (st : RecvState) (sender : Nat) (p : Packet) (hmsg : p.type = .PKT_MSG)
    (h : p.seq_num = st.expected) :
    deliveries (receiverStep evpDec key junkLen junkPl st sender p).2 =
      (decrypt_message evpDec key p.payload p.payload_len PAYLOAD_SIZE).toList ∧
    (receiverStep evpDec key junkLen junkPl st sender p).1.expected =
      (st.expected + 1) % U32 := by
  have h2 : p.seq_num = (observe st sender).expected := by
    rw [observe_expected]; exact h
  simp only [receiverStep, hmsg, if_pos h2]
  cases hd : decrypt_message evpDec key p.payload p.payload_len PAYLOAD_SIZE with
  | some pt => exact ⟨by simp [deliveries], by simp [observe_expected]⟩
  | none => exact ⟨by simp [deliveries], by simp [observe_expected]⟩

theorem receiverStep_msg_miss
    (evpDec : List Nat → List Nat → List Nat → Option (List Nat))
    (key : List Nat) (junkLen : Nat) (junkPl : List Nat)
    (st : RecvState) (sender : Nat) (p : Packet) (hmsg : p.type = .PKT_MSG)
    (h : p.seq_num ≠ st.expected) :
    deliveries (receiverStep evpDec key junkLen junkPl st sender p).2 = [] ∧
    (receiverStep evpDec key junkLen junkPl st sender p).1.expected =
      st.expected := by
  have h2 : ¬ p.seq_num = (observe st sender).expected := by
    rw [observe_expected]; exact h
  simp only [receiverStep, hmsg, if_neg h2]
  exact ⟨by simp [deliveries], by simp [observe_expected]⟩

/-- The receiver's decrypt call rejects any declared length larger than
`PAYLOAD_SIZE + ENC_IV_LEN`: the plaintext-capacity guard of
src/encryption.c line 75 fires before any cipher operation. -/
theorem decrypt_message_oversized
    (evpDec : List Nat → List Nat → List Nat → Option (List Nat))
    (key inBytes : List Nat) {inLen : Nat}
    (h : PAYLOAD_SIZE + ENC_IV_LEN < inLen) :
    decrypt_message evpDec key inBytes inLen PAYLOAD_SIZE = none := by
  unfold decrypt_message
  rw [if_neg (by norm_num [ENC_IV_LEN, PAYLOAD_SIZE] at h ⊢; omega)]
  rw [if_pos (by norm_num [ENC_IV_LEN, PAYLOAD_SIZE] at h ⊢; omega)]

/-- A concrete receiver state used by closed witness statements. -/
def st0 : RecvState := ⟨0, [], true, false, 0⟩

/-- C1 (amended): on every inbound `Message` the dispatcher transmits
exactly one datagram, an `Acknowledge` echoing the received seq; a seq
other than `expected_seq` delivers nothing and leaves `expected_seq`
unchanged; a seq equal to `expected_seq` advances `expected_seq` by
exactly 1 (modulo `2^32`) and delivers the decrypted plaintext exactly
once when decryption succeeds — and delivers nothing when decryption
fails, while still advancing `expected_seq`. -/
theorem C1_message_dispatch
    (evpDec : List Nat → List Nat → List Nat → Option (List Nat))
    (key : List Nat) (junkLen : Nat) (junkPl : List Nat)
    (st : RecvState) (sender : Nat) (p : Packet) (hmsg : p.type = .PKT_MSG) :
    framesSent (receiverStep evpDec key junkLen junkPl st sender p).2 =
      [encodePacket ⟨.PKT_ACK, p.seq_num, junkLen, junkPl⟩] ∧
    (p.seq_num ≠ st.expected →
       deliveries (receiverStep evpDec key junkLen junkPl st sender p).2 = [] ∧
       (receiverStep evpDec key junkLen junkPl st sender p).1.expected = st.expected) ∧
    (p.seq_num = st.expected →
       (receiverStep evpDec key junkLen junkPl st sender p).1.expected =
         (st.expected + 1) % U32 ∧
       deliveries (receiverStep evpDec key junkLen junkPl st sender p).2 =
         (decrypt_message evpDec key p.payload p.payload_len PAYLOAD_SIZE).toList) :=
  ⟨receiverStep_msg_frames evpDec key junkLen junkPl st sender p hmsg,
   fun h => receiverStep_msg_miss evpDec key junkLen junkPl st sender p hmsg h,
   fun h => ⟨(receiverStep_msg_hit evpDec key junkLen junkPl st sender p hmsg h).2,
             (receiverStep_msg_hit evpDec key junkLen junkPl st sender p hmsg h).1⟩⟩

/-- C1 witness: a concrete out-of-order `Message` (seq 5 against
expected 0) is acknowledged with seq 5 but delivers nothing and leaves
the cursor at 0. -/
theorem C1_message_dispatch_witness :
    framesSent (receiverStep padDec [] 0 [] st0 7 pkt0).2 =
      [encodePacket ⟨.PKT_ACK, 5, 0, []⟩] ∧
    deliveries (receiverStep padDec [] 0 [] st0 7 pkt0).2 = [] ∧
    (receiverStep padDec [] 0 [] st0 7 pkt0).1.expected = 0 := by
  have h := C1_message_dispatch padDec [] 0 [] st0 7 pkt0 rfl
  exact ⟨h.1, (h.2.1 (by decide)).1, (h.2.1 (by decide)).2⟩

set_option maxRecDepth 8000 in
/-- C1 counterexample: a `Message` whose seq equals `expected_seq` but
whose `payload_len` (0) is shorter than the IV makes `decrypt_message`
fail; the code then delivers nothing yet still advances `expected_seq`
to 1 — refuting "the decrypted plaintext is delivered exactly once and
expected_seq increases by exactly 1" as an unconditional conjunction. -/
theorem C1_message_dispatch_counterexample :
    (⟨.PKT_MSG, 0, 0, []⟩ : Packet).seq_num = st0.expected ∧
    deliveries (receiverStep padDec [] 0 [] st0 7 ⟨.PKT_MSG, 0, 0, []⟩).2 = [] ∧
    (receiverStep padDec [] 0 [] st0 7 ⟨.PKT_MSG, 0, 0, []⟩).1.expected = 1 := by
  decide

/-- C3 (amended): the receive path performs no codec-level validation:
every inbound `Message`, including one whose declared `payload_len`
exceeds the frame's payload capacity, reaches the dispatcher and is
acknowledged.  Such an oversized Message is still never delivered when
`payload_len` exceeds `PAYLOAD_SIZE + ENC_IV_LEN`, because
`decrypt_message` rejects it at its capacity guard. -/
theorem C3_no_oversize_reject
    (evpDec : List Nat → List Nat → List Nat → Option (List Nat))
    (key : List Nat) (junkLen : Nat) (junkPl : List Nat)
    (st : RecvState) (sender : Nat) (p : Packet) (hmsg : p.type = .PKT_MSG) :
    framesSent (receiverStep evpDec key junkLen junkPl st sender p).2 =
      [encodePacket ⟨.PKT_ACK, p.seq_num, junkLen, junkPl⟩] ∧
    (PAYLOAD_SIZE + ENC_IV_LEN < p.payload_len →
       deliveries (receiverStep evpDec key junkLen junkPl st sender p).2 = []) := by
  refine ⟨receiverStep_msg_frames evpDec key junkLen junkPl st sender p hmsg, ?_⟩
  intro hover
  by_cases h : p.seq_num = st.expected
  · have := (receiverStep_msg_hit evpDec key junkLen junkPl st sender p hmsg h).1
    rw [this, decrypt_message_oversized evpDec key p.payload hover]
    rfl
  · exact (receiverStep_msg_miss evpDec key junkLen junkPl st sender p hmsg h).1

set_option maxRecDepth 8000 in
/-- C3 witness: a `Message` declaring `payload_len = 2000` is still
acknowledged and (being oversized) delivers nothing. -/
theorem C3_no_oversize_reject_witness :
    framesSent (receiverStep padDec [] 0 [] st0 7 ⟨.PKT_MSG, 5, 2000, []⟩).2 =
      [encodePacket ⟨.PKT_ACK, 5, 0, []⟩] ∧
    deliveries (receiverStep padDec [] 0 [] st0 7 ⟨.PKT_MSG, 5, 2000, []⟩).2 = [] := by
  have h := C3_no_oversize_reject padDec [] 0 [] st0 7 ⟨.PKT_MSG, 5, 2000, []⟩ rfl
  exact ⟨h.1, h.2 (by decide)⟩

set_option maxRecDepth 8000 in
/-- C3 counterexample: a `Message` with `payload_len = 2000 >
PAYLOAD_SIZE` is not rejected before the dispatcher: it produces a
transmitted `Acknowledge` frame, refuting "neither acknowledged nor
delivered". -/
theorem C3_no_oversize_reject_counterexample :
    PAYLOAD_SIZE < (⟨.PKT_MSG, 5, 2000, []⟩ : Packet).payload_len ∧
    (framesSent (receiverStep padDec [] 0 [] st0 7
        ⟨.PKT_MSG, 5, 2000, []⟩).2).length = 1 := by
  decide

/-- `uint64` subtraction coincides with truncated Nat subtraction when
the clock has not wrapped and `b ≤ a`. -/
theorem u64sub_of_le {a b : Nat} (hb : b ≤ a) (ha : a < U64) :
    u64sub a b = a - b := by
  unfold u64sub
  have hbU : b % U64 = b := Nat.mod_eq_of_lt (lt_of_le_of_lt hb ha)
  rw [hbU]
  have h1 : U64 + a - b = U64 + (a - b) := by omega
  rw [h1, Nat.add_mod_left]
  exact Nat.mod_eq_of_lt (by omega)

/-- C5: one scheduler tick retransmits exactly the stored packets of the
entries whose age strictly exceeds the timeout (byte-identical frames of
the stored packets, in table order), refreshes exactly those entries'
`sent_at` to the current time, and leaves the rest untouched; an entry
whose `sent_at` was refreshed to `now` only becomes overdue again at a
time more than the timeout after `now` — so no entry is retransmitted
twice within the timeout of each other. -/
theorem C5_retransmit_overdue (now : Nat) (l : List Entry)
    (hnow : now < U64) (hl : ∀ e ∈ l, e.sentAt ≤ now) :
    (scanOverdue now l).2 =
      (l.filter fun e => decide (TIMEOUT_MS + e.sentAt < now)).map
        (fun e => encodePacket e.packet) ∧
    (scanOverdue now l).1 =
      l.map (fun e => if TIMEOUT_MS + e.sentAt < now then ⟨e.packet, now⟩ else e) ∧
    (∀ (pkt : Packet) (now2 : Nat), now ≤ now2 → now2 < U64 →
       overdue now2 ⟨pkt, now⟩ = true → TIMEOUT_MS + now < now2) := by
  have hpt : ∀ e ∈ l, overdue now e = decide (TIMEOUT_MS + e.sentAt < now) := by
    intro e he
    unfold overdue
    rw [u64sub_of_le (hl e he) hnow]
    have hs := hl e he
    exact decide_eq_decide.mpr (by omega)
  refine ⟨?_, ?_, ?_⟩
  · unfold scanOverdue
    simp only
    rw [List.filter_congr hpt]
  · unfold scanOverdue
    simp only
    apply List.map_congr_left
    intro e he
    rw [hpt e he]
    by_cases h : TIMEOUT_MS + e.sentAt < now
    · simp [h]
    · simp [h]
  · intro pkt now2 h12 h2U hov
    unfold overdue at hov
    rw [u64sub_of_le h12 h2U] at hov
    have := of_decide_eq_true hov
    omega

/-- C5 witness: an entry sent at time 0 is overdue at time 3000 and is
retransmitted as its stored frame; once refreshed to 3000 it can only
fire again after time 5000. -/
theorem C5_retransmit_overdue_witness :
    (scanOverdue 3000 [⟨pkt0, 0⟩]).2 =
      (([⟨pkt0, 0⟩] : List Entry).filter fun e =>
        decide (TIMEOUT_MS + e.sentAt < 3000)).map
          (fun e => encodePacket e.packet) ∧
    TIMEOUT_MS + 3000 < 5500 := by
  have h := C5_retransmit_overdue 3000 [⟨pkt0, 0⟩] (by decide)
    (by intro e he; simp at he; rw [he]; decide)
  refine ⟨h.1, h.2.2 pkt0 5500 (by decide) (by decide) (by decide)⟩

/-- C6: round-trip laws.  Decoding inverts encoding for every valid
packet, and — under the EVP collaborator contract — `decrypt_message`
applied with the same 32-byte key to the successful output of
`encrypt_message` returns the original plaintext whenever the
plaintext fits the receiver's capacity. -/
theorem C6_roundtrip (evpEnc : List Nat → List Nat → List Nat → List Nat)
    (evpDec : List Nat → List Nat → List Nat → Option (List Nat))
    (hinv : EvpInverse evpEnc evpDec) (hlen : EvpCbcLength evpEnc) :
    (∀ p : Packet, PacketValid p → decodePacket (encodePacket p) = some p) ∧
    (∀ (key pt iv blob : List Nat) (out_cap cap : Nat),
       key.length = ENC_KEY_LEN → iv.length = ENC_IV_LEN →
       pt.length + ENC_IV_LEN ≤ cap →
       encrypt_message evpEnc key pt out_cap iv = some blob →
       decrypt_message evpDec key blob blob.length cap = some pt) := by
  refine ⟨fun p hp => decode_encode p hp, ?_⟩
  intro key pt iv blob out_cap cap hkey hiv hcap henc
  exact encrypt_decrypt_roundtrip evpEnc evpDec hinv hlen key pt iv blob
    out_cap cap hiv (by norm_num [ENC_IV_LEN] at hcap; omega) henc

/-- A concrete valid packet for the codec witness. -/
def pktFull : Packet := ⟨.PKT_MSG, 5, 3, List.replicate 1024 7⟩

set_option maxRecDepth 8000 in
/-- C6 witness: the codec round-trips a concrete valid packet, and with
the concrete padding EVP instantiation a concrete 3-byte plaintext
survives encrypt-then-decrypt under a 32-byte key. -/
theorem C6_roundtrip_witness :
    decodePacket (encodePacket pktFull) = some pktFull ∧
    decrypt_message padDec (List.replicate 32 0)
      (List.replicate 16 0 ++
        padEnc (List.replicate 32 0) (List.replicate 16 0) [1, 2, 3])
      (List.replicate 16 0 ++
        padEnc (List.replicate 32 0) (List.replicate 16 0) [1, 2, 3]).length
      1024 = some [1, 2, 3] := by
  have h := C6_roundtrip padEnc padDec padEnc_padDec padEnc_length
  refine ⟨h.1 pktFull (by decide), ?_⟩
  refine h.2 (List.replicate 32 0) [1, 2, 3] (List.replicate 16 0) _ 1024 1024
    (by decide) (by decide) (by decide) ?_
  unfold encrypt_message
  rw [if_neg (by decide)]

/-- Whether a cleanup event is a datagram transmission. -/
def isSend : MainEvent → Bool
  | .sendFrame _ => true
  | _ => false

/-- C8 (amended): receipt of a `Finish` packet sets the shared stop flag
(and produces no output), and each of the three worker loops, once its
guard reads a false flag, terminates on that next iteration without
doing further work; on shutdown with a known peer the cleanup sequence
sends exactly one `Finish` frame (and none when the peer is unknown) —
the send happens after joining the three worker threads (positions
0,1,2), at position 3, and before closing the transport (position 4). -/
theorem C8_shutdown (evpDec : List Nat → List Nat → List Nat → Option (List Nat))
    (evpEnc : List Nat → List Nat → List Nat → List Nat)
    (key : List Nat) (junkLen : Nat) (junkPl : List Nat) :
    (∀ st sender p, p.type = .PKT_FIN →
       (receiverStep evpDec key junkLen junkPl st sender p).1.running = false ∧
       (receiverStep evpDec key junkLen junkPl st sender p).2 = []) ∧
    (∀ inputs st, st.running = false →
       receiver_fn evpDec key junkLen junkPl inputs st = (st, [])) ∧
    (∀ inputs st, st.running = false →
       sender_fn evpEnc key inputs st = (st, [])) ∧
    (∀ ticks st, st.running = false →
       retransmitter_fn ticks st = (st, [])) ∧
    (∀ nextSeq,
       mainFrames (mainCleanup true nextSeq junkLen junkPl) =
         [encodePacket ⟨.PKT_FIN, nextSeq, junkLen, junkPl⟩] ∧
       mainFrames (mainCleanup false nextSeq junkLen junkPl) = [] ∧
       (mainCleanup true nextSeq junkLen junkPl).indexOf MainEvent.joinRx = 0 ∧
       (mainCleanup true nextSeq junkLen junkPl).indexOf MainEvent.joinTx = 1 ∧
       (mainCleanup true nextSeq junkLen junkPl).indexOf MainEvent.joinRt = 2 ∧
       (mainCleanup true nextSeq junkLen junkPl).findIdx isSend = 3 ∧
       (mainCleanup true nextSeq junkLen junkPl).indexOf MainEvent.closeSocket = 4) := by
  refine ⟨?_, ?_, ?_, ?_, ?_⟩
  · intro st sender p hfin
    simp [receiverStep, hfin]
  · intro inputs st h
    cases inputs with
    | nil => rfl
    | cons hd tl =>
      cases hd with
      | mk sender p => simp [receiver_fn, h]
  · intro inputs st h
    cases inputs with
    | nil => rfl
    | cons hd tl =>
      rcases hd with ⟨line, now, iv, junkPad⟩
      simp [sender_fn, h]
  · intro ticks st h
    cases ticks with
    | nil => rfl
    | cons t tl => simp [retransmitter_fn, h]
  · intro nextSeq
    exact ⟨rfl, rfl, rfl, rfl, rfl, rfl, rfl⟩

/-- C8 witness: a concrete `Finish` packet stops the receiver state, a
stopped loop exits immediately, and the concrete cleanup sends its one
`Finish` frame at position 3. -/
theorem C8_shutdown_witness :
    (receiverStep padDec [] 0 [] st0 7 ⟨.PKT_FIN, 0, 0, []⟩).1.running = false ∧
    receiver_fn padDec [] 0 [] [(7, pkt0)] ⟨0, [], false, true, 7⟩ =
      (⟨0, [], false, true, 7⟩, []) ∧
    (mainCleanup true 0 0 []).findIdx isSend = 3 := by
  have h := C8_shutdown padDec padEnc [] 0 []
  exact ⟨(h.1 st0 7 ⟨.PKT_FIN, 0, 0, []⟩ rfl).1,
    h.2.1 [(7, pkt0)] ⟨0, [], false, true, 7⟩ rfl,
    (h.2.2.2.2 0).2.2.2.2.2.1⟩

set_option maxRecDepth 8000 in
/-- C8 counterexample: in `main`'s actual cleanup sequence the `Finish`
frame (position 3) is sent after joining the worker threads (the joins
are at positions 0-2), refuting "sends one Finish ... before closing the
transport and joining all worker threads". -/
theorem C8_shutdown_counterexample :
    ¬ ((mainCleanup true 0 0 []).findIdx isSend <
        (mainCleanup true 0 0 []).indexOf MainEvent.joinRx) := by
  decide

/-- C9 (amended): starting from the initial state, the local counter
starts at 0 and the sequence numbers a session assigns are
`0 % 2^32, 1 % 2^32, 2 % 2^32, ...` in order — the `uint32` counter
advances by exactly 1 modulo `2^32` per successful send, and the counter
always equals the number of successful sends modulo `2^32`; hence no
sequence number repeats among the first `2^32` successful sends of a
session (beyond which the counter wraps). -/
theorem C9_seq_counter (evpEnc : List Nat → List Nat → List Nat → List Nat)
    (key : List Nat) (ops : List Op) :
    (runOps evpEnc key ⟨0, []⟩ ops).1.nextSeq =
      (runOps evpEnc key ⟨0, []⟩ ops).2.length % U32 ∧
    (runOps evpEnc key ⟨0, []⟩ ops).2 =
      (List.range (runOps evpEnc key ⟨0, []⟩ ops).2.length).map (· % U32) ∧
    ((runOps evpEnc key ⟨0, []⟩ ops).2.length ≤ U32 →
       (runOps evpEnc key ⟨0, []⟩ ops).2.Nodup) := by
  have hU : (0 : Nat) < U32 := by norm_num [U32]
  have h := runOps_seqs evpEnc key ops ⟨0, []⟩ hU
  have h2 : (runOps evpEnc key ⟨0, []⟩ ops).2 =
      (List.range (runOps evpEnc key ⟨0, []⟩ ops).2.length).map (· % U32) := by
    have := h.2
    simpa using this
  refine ⟨by simpa using h.1, h2, ?_⟩
  intro hle
  rw [h2]
  have hid : (List.range (runOps evpEnc key ⟨0, []⟩ ops).2.length).map (· % U32) =
      (List.range (runOps evpEnc key ⟨0, []⟩ ops).2.length).map id := by
    apply List.map_congr_left
    intro j hj
    exact Nat.mod_eq_of_lt (lt_of_lt_of_le (List.mem_range.mp hj) hle)
  rw [hid, List.map_id]
  exact List.nodup_range _

/-- C9 witness: a concrete two-send session assigns seqs 0 and 1, which
are distinct. -/
theorem C9_seq_counter_witness :
    ((runOps padEnc [] ⟨0, []⟩ [sendX, sendX]).2.length ≤ U32) ∧
    ((runOps padEnc [] ⟨0, []⟩ [sendX, sendX]).2).Nodup :=
  ⟨by decide, (C9_seq_counter padEnc [] [sendX, sendX]).2.2 (by decide)⟩

/-- C9 counterexample: in a session of `2^32 + 1` successful sends (each
acknowledged immediately, so the tracker never fills) the `uint32`
counter wraps and sequence number 0 is assigned twice — the assigned
seq list is not duplicate-free, refuting "no sequence number is ever
reused within a session". -/
theorem C9_seq_counter_counterexample :
    ¬ ((runOps padEnc [] ⟨0, []⟩ (pingPongOps (U32 + 1))).2).Nodup := by
  have hrun := congrArg Prod.snd (pingPong_run (U32 + 1))
  simp only at hrun
  rw [hrun]
  intro hnd
  have hinj := List.inj_on_of_nodup_map hnd
  have h0 : (0 : Nat) ∈ List.range (U32 + 1) := List.mem_range.mpr (by omega)
  have hU : U32 ∈ List.range (U32 + 1) := List.mem_range.mpr (by omega)
  have heq : (0 : Nat) % U32 = U32 % U32 := by
    rw [Nat.zero_mod, Nat.mod_self]
  have h00 := hinj h0 hU heq
  have hUne : U32 ≠ 0 := by norm_num [U32]
  exact hUne h00.symm

end UdpChat
